import Mathlib

/-!
Verification of the format-normalization and download-selection logic of a
small video-download backend (`utils/video_processor.py` and `app.py`).

The Python code works on dictionaries coming from an external extraction
engine.  We embed a dictionary field as `Option (Option α)`:
`none` means the key is absent, `some none` means the key is present with
value `None` (null), and `some (some v)` means the key holds `v`.
`dict.get(k, d)` and `dict.get(k)` then become `pyGet` and `pyRaw`, both
returning a Python value of type `Option α` (where `none` is Python `None`).
-/

/-- Python dictionary field: key absent, key null, or key with a value. -/
abbrev PyField (α : Type) := Option (Option α)

/-- Python `dict.get(key, default)`: the default is used only when the key is
absent; an explicit null is returned as null. -/
def pyGet {α : Type} (f : PyField α) (d : α) : Option α :=
  match f with
  | none => some d
  | some v => v

/-- Python `dict.get(key)` with no default: absent and null both give null. -/
def pyRaw {α : Type} (f : PyField α) : Option α :=
  match f with
  | none => none
  | some v => v

/-- Python truthiness test (`not x`) for an optional string:
`None` and the empty string are falsy. -/
def optStrFalsy : Option String → Bool
  | none => true
  | some s => s == ""

/-- Python truthiness test (`not x`) for an optional integer:
`None` and `0` are falsy. -/
def optIntFalsy : Option Int → Bool
  | none => true
  | some n => n == 0

/-- One raw format descriptor as handed over by the extraction engine
(the `fmt` dictionaries iterated by `_process_formats`).  Only the keys the
code reads are modelled; each may be absent, null, or carry a value. -/
structure RawFormat where
  url : PyField String := none
  filesize : PyField Int := none
  filesize_approx : PyField Int := none
  height : PyField Int := none
  width : PyField Int := none
  fps : PyField Int := none
  vcodec : PyField String := none
  acodec : PyField String := none
  format_id : PyField String := none
  ext : PyField String := none
  deriving DecidableEq

/-- Body of `_create_quality_label` for an integer height.  Python `//` is
floor division; the divisor `1000` is positive, so Lean `Int` division
(Euclidean) coincides with it exactly. -/
def qualityLabelInt (height : Int) : String :=
  if height ≥ 4320 then toString (height / 1000) ++ "K"
  else if height ≥ 2160 then "4K"
  else if height ≥ 1440 then "2K"
  else if height ≥ 1080 then "1080p"
  else if height ≥ 720 then "720p"
  else if height ≥ 480 then "480p"
  else if height ≥ 360 then "360p"
  else if height ≥ 240 then "240p"
  else if height ≥ 144 then "144p"
  else toString height ++ "p"

/-- Source `_create_quality_label(height, width, fps)`.  The function only reads
`height`; when `height` is Python `None` the first comparison
`height >= 4320` raises a `TypeError`, which we model as an exception
value.  `width` and `fps` are accepted but ignored, as in the source. -/
def createQualityLabel (height width fps : Option Int) : Except String String :=
  match height with
  | none => .error "TypeError: unsupported comparison between NoneType and int"
  | some h => .ok (qualityLabelInt h)

/-- Formats the value `n / d` (a float in Python) with one fractional digit,
as `f-string` `:.1f` does.  The floats reaching `_format_filesize` are an
integer repeatedly divided by 1024, so they are represented exactly as a
numerator over a power-of-1024 denominator.  Rounding is modelled as exact
rational round-half-up; CPython rounds the nearest binary double, which can
differ only on ties, and no verified property depends on the digit chosen
there. -/
def fmtOneDec (n d : Int) : String :=
  let scaled : Int := Int.fdiv (20 * n + d) (2 * d)
  toString (Int.fdiv scaled 10) ++ "." ++ toString ((Int.fmod scaled 10).natAbs)

/-- Loop of `_format_filesize`: `for unit in [B, KB, MB, GB]` dividing by
1024 until the value drops below 1024, falling through to TB.  The running
value is `n / d`. -/
def filesizeLoop : Int → Int → List String → String
  | n, d, [] => fmtOneDec n d ++ " TB"
  | n, d, u :: us =>
    if n < 1024 * d then fmtOneDec n d ++ " " ++ u
    else filesizeLoop n (1024 * d) us

/-- Source `_format_filesize(bytes_size)`: falsy input (`None` or `0`) gives
"Unknown", otherwise the unit loop formats the value. -/
def formatFilesize (bytes_size : Option Int) : String :=
  match bytes_size with
  | none => "Unknown"
  | some n => if n == 0 then "Unknown" else filesizeLoop n 1 ["B", "KB", "MB", "GB"]

/-- Zero padding of Python `f"{n:02d}"` for the values produced by
`_format_duration` (non-negative minute/second counts). -/
def pad2 (n : Int) : String :=
  if 0 ≤ n ∧ n < 10 then "0" ++ toString n else toString n

/-- Source `_format_duration(seconds)`: falsy input gives "Unknown"; otherwise
`H:MM:SS` when at least one hour, else `M:SS`.  Python `//` and `%` are
floor division and modulo, which for the positive divisors used here agree
with Lean `Int` division and modulo. -/
def formatDuration (seconds : Option Int) : String :=
  match seconds with
  | none => "Unknown"
  | some s =>
    if s == 0 then "Unknown"
    else
      let hours := s / 3600
      let minutes := (s % 3600) / 60
      let secs := s % 60
      if hours > 0 then toString hours ++ ":" ++ pad2 minutes ++ ":" ++ pad2 secs
      else toString minutes ++ ":" ++ pad2 secs

/-- One entry of the processed format list built by `_process_formats`
(the dictionary appended to `processed_formats`).  `height` is stored as an
integer: an entry is only ever built after `_create_quality_label` returned
normally, which forces the height to be an actual integer (a null height
raises before the entry is constructed). -/
structure QualityOption where
  format_id : Option String
  quality : String
  height : Int
  width : Option Int
  fps : Option Int
  filesize : Option Int
  filesize_formatted : String
  vcodec : Option String
  acodec : Option String
  url : Option String
  ext : Option String
  deriving DecidableEq

/-- Filesize resolution inside the loop: prefer `filesize`, and when it is
falsy (absent, null or zero) fall back to `filesize_approx`. -/
def resolvedFilesize (fmt : RawFormat) : Option Int :=
  let filesize := pyGet fmt.filesize 0
  if optIntFalsy filesize then pyGet fmt.filesize_approx 0 else filesize

/-- The dictionary literal appended to `processed_formats` for a surviving
format, given its (integer) height and quality label. -/
def mkEntry (fmt : RawFormat) (h : Int) (quality_label : String) : QualityOption :=
  { format_id := pyGet fmt.format_id ""
    quality := quality_label
    height := h
    width := pyGet fmt.width 0
    fps := pyGet fmt.fps 0
    filesize := resolvedFilesize fmt
    filesize_formatted := formatFilesize (resolvedFilesize fmt)
    vcodec := pyGet fmt.vcodec "none"
    acodec := pyGet fmt.acodec "none"
    url := pyGet fmt.url ""
    ext := pyGet fmt.ext "mp4" }

/-- The entry a raw format produces when it survives the filters with
integer height `h`. -/
def entryOf (fmt : RawFormat) (h : Int) : QualityOption :=
  mkEntry fmt h (qualityLabelInt h)

/-- The non-dedup filter conditions of the loop in `_process_formats`:
a format passes when `fmt.get("url")` is truthy, `fmt.get("filesize")` is
not the integer 0, and `fmt.get("vcodec", "none")` is not the sentinel
string "none". -/
def passesFilter (fmt : RawFormat) : Bool :=
  !(optStrFalsy (pyRaw fmt.url) || pyRaw fmt.filesize == some 0)
    && !(pyGet fmt.vcodec "none" == some "none")

/-- The filtering and deduplicating loop of `_process_formats`, with the
set `seen_qualities` threaded through as `seen`.  The output preserves the
input order of the surviving formats (entries are appended in loop order).
A format passing the filters whose height is null makes
`_create_quality_label` raise, which aborts the whole call. -/
def filterFormats : List RawFormat → List String → Except String (List QualityOption)
  | [], _ => .ok []
  | fmt :: rest, seen =>
    if optStrFalsy (pyRaw fmt.url) || pyRaw fmt.filesize == some 0 then
      filterFormats rest seen
    else if pyGet fmt.vcodec "none" == some "none" then
      filterFormats rest seen
    else
      match createQualityLabel (pyGet fmt.height 0) (pyGet fmt.width 0) (pyGet fmt.fps 0),
            pyGet fmt.height 0 with
      | .error e, _ => .error e
      | .ok quality_label, some h =>
        if quality_label ∈ seen then filterFormats rest seen
        else
          match filterFormats rest (quality_label :: seen) with
          | .error e => .error e
          | .ok out => .ok (mkEntry fmt h quality_label :: out)
      | .ok _, none => .error "TypeError: unsupported comparison between NoneType and int"

/-- Stable insertion of an entry into a height-descending list: the new
element goes before the first existing element whose height does not exceed
its own.  Elements already in the list keep their relative order. -/
def insertDesc (x : QualityOption) : List QualityOption → List QualityOption
  | [] => [x]
  | y :: ys => if x.height < y.height then y :: insertDesc x ys else x :: y :: ys

/-- Source `processed_formats.sort` with the height key and `reverse=True`.
Python `list.sort` is stable; a stable height-descending sort is uniquely
determined by its input, and insertion sort with `insertDesc` realizes it. -/
def sortDesc : List QualityOption → List QualityOption
  | [] => []
  | x :: xs => insertDesc x (sortDesc xs)

/-- Source `_process_formats(formats)`: filter and deduplicate, sort by height
descending, then prepend the synthetic "Highest Available" clone of the top
entry when the surviving list is non-empty. -/
def processFormats (formats : List RawFormat) : Except String (List QualityOption) :=
  match filterFormats formats [] with
  | .error e => .error e
  | .ok entries =>
    match sortDesc entries with
    | [] => .ok []
    | first :: rest =>
      .ok ({ first with quality := "Highest Available", format_id := some "best" }
             :: first :: rest)

/-- Format-selection expression of rule 1 in `download_video`. -/
def bestFormatExpr : String := "bestvideo[ext=mp4]+bestaudio[ext=m4a]/best[ext=mp4]/best"

/-- Fallback format-selection expression of `download_video`. -/
def plainFormatExpr : String := "best[ext=mp4]/best"

/-- Quality Resolver: the format-selection policy of `download_video`.
`format_id` is the `Optional[str]` request field; the `elif format_id:`
branch fires only when the identifier is truthy (non-null and non-empty). -/
def selectFormat (quality : String) (format_id : Option String) : String :=
  if quality = "Highest Available" ∨ format_id = some "best" then bestFormatExpr
  else if optStrFalsy format_id = false then format_id.getD ""
  else plainFormatExpr

/-- Python string slicing `s[:n]`: the first `n` code points of `s`. -/
def strTake (s : String) (n : Nat) : String := String.mk (s.data.take n)

/-- Description shaping in `get_video_info`:
`info.get("description", "")[:200] + "..." if info.get("description", "") else ""`.
The conditional expression binds last, so a truthy description always gets
the ellipsis appended after truncation to 200 characters. -/
def descField (description : PyField String) : String :=
  match pyGet description "" with
  | none => ""
  | some s => if s == "" then "" else strTake s 200 ++ "..."

/-- Metadata record returned by the extraction engine on success
(the keys of `info` that `get_video_info` reads). -/
structure ExtractedInfo where
  title : PyField String := none
  thumbnail : PyField String := none
  duration : PyField Int := none
  formats : PyField (List RawFormat) := none
  id : PyField String := none
  uploader : PyField String := none
  view_count : PyField Int := none
  like_count : PyField Int := none
  description : PyField String := none

/-- The dictionary built and returned by `get_video_info`. -/
structure PreviewInfo where
  title : Option String
  thumbnail : Option String
  duration : Option Int
  duration_formatted : String
  formats : List QualityOption
  video_id : Option String
  uploader : Option String
  view_count : Option Int
  like_count : Option Int
  description : String

/-- Source `get_video_info`, given the outcome of the engine call
`ydl.extract_info(url, download=False)` (an opaque failure or a metadata
record).  Everything inside the `try` block — the engine call, the
iteration over `info.get("formats", [])` and `_process_formats` itself —
can raise; the `except` clause wraps any such error text in
`Error extracting video info: ...`. -/
def getVideoInfo (engine : Except String ExtractedInfo) : Except String PreviewInfo :=
  ((match engine with
   | .error e => .error e
   | .ok info =>
     match pyGet info.formats [] with
     | none => .error "TypeError: NoneType object is not iterable"
     | some rawFormats =>
       match processFormats rawFormats with
       | .error e => .error e
       | .ok formats =>
         .ok { title := pyGet info.title "Unknown Title"
               thumbnail := pyGet info.thumbnail ""
               duration := pyGet info.duration 0
               duration_formatted := formatDuration (pyGet info.duration 0)
               formats := formats
               video_id := pyGet info.id ""
               uploader := pyGet info.uploader "Unknown"
               view_count := pyGet info.view_count 0
               like_count := pyGet info.like_count 0
               description := descField info.description }
    : Except String PreviewInfo)).mapError (fun e => "Error extracting video info: " ++ e)

/-- Handler of the preview endpoint after URL validation: a successful
`get_video_info` call is shaped into the response, any raised exception is
converted by `except Exception as e: HTTPException(status_code=400,
detail=str(e))` into a 400 response carrying the exception text. -/
def previewResponse (engine : Except String ExtractedInfo) :
    Except (Nat × String) PreviewInfo :=
  match getVideoInfo engine with
  | .error e => .error (400, e)
  | .ok info => .ok info

/-! ### Lemmas about the stable descending sort -/

theorem insertDesc_perm (x : QualityOption) (l : List QualityOption) :
    (insertDesc x l).Perm (x :: l) := by
  induction l with
  | nil => simp [insertDesc]
  | cons y ys ih =>
    simp only [insertDesc]
    split
    · exact (ih.cons y).trans (List.Perm.swap x y ys)
    · exact List.Perm.refl _

theorem sortDesc_perm (l : List QualityOption) : (sortDesc l).Perm l := by
  induction l with
  | nil => simp [sortDesc]
  | cons x xs ih => exact (insertDesc_perm x (sortDesc xs)).trans (ih.cons x)

theorem pairwise_insertDesc (x : QualityOption) (l : List QualityOption)
    (hl : l.Pairwise (fun a b => b.height ≤ a.height)) :
    (insertDesc x l).Pairwise (fun a b => b.height ≤ a.height) := by
  induction l with
  | nil => simp [insertDesc]
  | cons y ys ih =>
    rcases List.pairwise_cons.mp hl with ⟨hy, hys⟩
    simp only [insertDesc]
    split
    case isTrue hlt =>
      refine List.pairwise_cons.mpr ⟨?_, ih hys⟩
      intro a ha
      rcases List.mem_cons.mp ((insertDesc_perm x ys).mem_iff.mp ha) with rfl | ha
      · exact le_of_lt hlt
      · exact hy a ha
    case isFalse hge =>
      refine List.pairwise_cons.mpr ⟨?_, hl⟩
      intro a ha
      rcases List.mem_cons.mp ha with rfl | ha
      · exact le_of_not_lt hge
      · exact (hy a ha).trans (le_of_not_lt hge)

theorem sortDesc_sorted (l : List QualityOption) :
    (sortDesc l).Pairwise (fun a b => b.height ≤ a.height) := by
  induction l with
  | nil => simp [sortDesc]
  | cons x xs ih => exact pairwise_insertDesc x (sortDesc xs) ih

theorem filter_insertDesc (x : QualityOption) (l : List QualityOption) (h : Int) :
    (insertDesc x l).filter (fun e => e.height == h) =
      if x.height = h then x :: l.filter (fun e => e.height == h)
      else l.filter (fun e => e.height == h) := by
  induction l with
  | nil =>
    simp only [insertDesc, List.filter_cons, List.filter_nil]
    by_cases hx : x.height = h <;> simp [hx]
  | cons y ys ih =>
    simp only [insertDesc]
    split
    case isTrue hlt =>
      by_cases hx : x.height = h
      · have hy : (y.height == h) = false := by
          simp only [beq_eq_false_iff_ne, ne_eq]
          omega
        simp [List.filter_cons, hy, ih, hx]
      · simp [List.filter_cons, ih, hx]
    case isFalse hge =>
      by_cases hx : x.height = h <;> simp [List.filter_cons, hx]

theorem filter_sortDesc (l : List QualityOption) (h : Int) :
    (sortDesc l).filter (fun e => e.height == h) = l.filter (fun e => e.height == h) := by
  induction l with
  | nil => simp [sortDesc]
  | cons x xs ih =>
    simp only [sortDesc, filter_insertDesc, ih, List.filter_cons]
    by_cases hx : x.height = h <;> simp [hx]

/-! ### Lemmas about the filtering and deduplicating loop -/

theorem filterFormats_cons (fmt : RawFormat) (rest : List RawFormat) (seen : List String) :
    filterFormats (fmt :: rest) seen =
      if passesFilter fmt = false then filterFormats rest seen
      else
        match pyGet fmt.height 0 with
        | none => .error "TypeError: unsupported comparison between NoneType and int"
        | some h =>
          if qualityLabelInt h ∈ seen then filterFormats rest seen
          else
            match filterFormats rest (qualityLabelInt h :: seen) with
            | .error e => .error e
            | .ok out => .ok (mkEntry fmt h (qualityLabelInt h) :: out) := by
  by_cases h1 : (optStrFalsy (pyRaw fmt.url) || pyRaw fmt.filesize == some 0) = true
  · simp [filterFormats, h1, passesFilter]
  · by_cases h2 : (pyGet fmt.vcodec "none" == some "none") = true
    · simp [filterFormats, h1, h2, passesFilter]
    · rcases hh : pyGet fmt.height 0 with _ | h
      · simp [filterFormats, h1, h2, passesFilter, hh, createQualityLabel]
      · simp [filterFormats, h1, h2, passesFilter, hh, createQualityLabel]

/-- No raw format in `pre` that passes the filters produces the label `L`. -/
def noEarlierLabel (L : String) (pre : List RawFormat) : Prop :=
  ∀ g ∈ pre, ∀ h2 : Int, passesFilter g = true → pyGet g.height 0 = some h2 →
    qualityLabelInt h2 ≠ L

/-- Entry `e` is produced by the loop run on `formats` with `seen` already
recorded: some raw format passes the filters, its label is new, it is the
first eligible format with that label, and `e` is its entry. -/
def producedAt (formats : List RawFormat) (seen : List String) (e : QualityOption) : Prop :=
  ∃ pre fmt post ht, formats = pre ++ fmt :: post ∧ passesFilter fmt = true ∧
    pyGet fmt.height 0 = some ht ∧ e = entryOf fmt ht ∧
    qualityLabelInt ht ∉ seen ∧ noEarlierLabel (qualityLabelInt ht) pre

theorem filterFormats_labels (formats : List RawFormat) :
    ∀ (seen : List String) (out : List QualityOption),
      filterFormats formats seen = .ok out →
      (∀ e ∈ out, e.quality ∉ seen) ∧ (out.map (fun e => e.quality)).Nodup := by
  induction formats with
  | nil =>
    intro seen out h
    simp only [filterFormats, Except.ok.injEq] at h
    subst h
    simp
  | cons fmt rest ih =>
    intro seen out h
    rw [filterFormats_cons] at h
    by_cases hp : passesFilter fmt = false
    · rw [if_pos hp] at h
      exact ih seen out h
    · rw [if_neg hp] at h
      rcases hh : pyGet fmt.height 0 with _ | ht
      · simp only [hh] at h
        exact absurd h (by simp)
      · simp only [hh] at h
        by_cases hs : qualityLabelInt ht ∈ seen
        · rw [if_pos hs] at h
          exact ih seen out h
        · rw [if_neg hs] at h
          rcases hrec : filterFormats rest (qualityLabelInt ht :: seen) with e | out'
          · rw [hrec] at h; exact absurd h (by simp)
          · rw [hrec] at h
            simp only [Except.ok.injEq] at h
            subst h
            obtain ⟨h1, h2⟩ := ih _ out' hrec
            refine ⟨?_, ?_⟩
            · intro e he
              rcases List.mem_cons.mp he with rfl | he
              · simpa [mkEntry] using hs
              · exact fun hc => h1 e he (List.mem_cons_of_mem _ hc)
            · simp only [List.map_cons, List.nodup_cons]
              refine ⟨?_, h2⟩
              intro hc
              rcases List.mem_map.mp hc with ⟨e, he, hq⟩
              have : (mkEntry fmt ht (qualityLabelInt ht)).quality = qualityLabelInt ht := rfl
              rw [this] at hq
              exact h1 e he (hq ▸ List.mem_cons_self _ _)

theorem noEarlierLabel_cons {L : String} {fmt : RawFormat} {pre : List RawFormat}
    (hfmt : ∀ h2 : Int, passesFilter fmt = true → pyGet fmt.height 0 = some h2 →
      qualityLabelInt h2 ≠ L)
    (hpre : noEarlierLabel L pre) : noEarlierLabel L (fmt :: pre) := by
  intro g hg h2 hpass hh
  rcases List.mem_cons.mp hg with rfl | hg
  · exact hfmt h2 hpass hh
  · exact hpre g hg h2 hpass hh

theorem filterFormats_mem (formats : List RawFormat) :
    ∀ (seen : List String) (out : List QualityOption),
      filterFormats formats seen = .ok out →
      ∀ e : QualityOption, (e ∈ out ↔ producedAt formats seen e) := by
  induction formats with
  | nil =>
    intro seen out h e
    simp only [filterFormats, Except.ok.injEq] at h
    subst h
    simp only [List.not_mem_nil, false_iff]
    rintro ⟨pre, fmt, post, ht, habs, -⟩
    exact (List.cons_ne_nil fmt post) (List.append_eq_nil.mp habs.symm).2
  | cons fmt0 rest ih =>
    intro seen out h e
    rw [filterFormats_cons] at h
    by_cases hp : passesFilter fmt0 = false
    · rw [if_pos hp] at h
      rw [ih seen out h e]
      constructor
      · rintro ⟨pre, fmt, post, ht, hsplit, hpass, hh, he, hns, hfirst⟩
        refine ⟨fmt0 :: pre, fmt, post, ht, by rw [hsplit, List.cons_append],
          hpass, hh, he, hns, noEarlierLabel_cons ?_ hfirst⟩
        intro h2 hq _
        rw [hp] at hq
        exact absurd hq (by simp)
      · rintro ⟨pre, fmt, post, ht, hsplit, hpass, hh, he, hns, hfirst⟩
        rcases pre with _ | ⟨p0, pre'⟩
        · simp only [List.nil_append, List.cons.injEq] at hsplit
          obtain ⟨rfl, rfl⟩ := hsplit
          rw [hpass] at hp
          exact absurd hp (by simp)
        · simp only [List.cons_append, List.cons.injEq] at hsplit
          exact ⟨pre', fmt, post, ht, hsplit.2, hpass, hh, he, hns,
            fun g hg => hfirst g (List.mem_cons_of_mem _ hg)⟩
    · rw [if_neg hp] at h
      have hp' : passesFilter fmt0 = true := by simpa using hp
      rcases hh0 : pyGet fmt0.height 0 with _ | ht0
      · simp only [hh0] at h
        exact absurd h (by simp)
      · simp only [hh0] at h
        by_cases hs : qualityLabelInt ht0 ∈ seen
        · rw [if_pos hs] at h
          rw [ih seen out h e]
          constructor
          · rintro ⟨pre, fmt, post, ht, hsplit, hpass, hh, he, hns, hfirst⟩
            refine ⟨fmt0 :: pre, fmt, post, ht, by rw [hsplit, List.cons_append],
              hpass, hh, he, hns, noEarlierLabel_cons ?_ hfirst⟩
            intro h2 _ hh2
            rw [hh0] at hh2
            injection hh2 with hh2
            subst hh2
            intro heq
            exact hns (heq ▸ hs)
          · rintro ⟨pre, fmt, post, ht, hsplit, hpass, hh, he, hns, hfirst⟩
            rcases pre with _ | ⟨p0, pre'⟩
            · simp only [List.nil_append, List.cons.injEq] at hsplit
              obtain ⟨rfl, rfl⟩ := hsplit
              rw [hh0] at hh
              injection hh with hh
              subst hh
              exact absurd hs hns
            · simp only [List.cons_append, List.cons.injEq] at hsplit
              exact ⟨pre', fmt, post, ht, hsplit.2, hpass, hh, he, hns,
                fun g hg => hfirst g (List.mem_cons_of_mem _ hg)⟩
        · rw [if_neg hs] at h
          rcases hrec : filterFormats rest (qualityLabelInt ht0 :: seen) with err | out'
          · rw [hrec] at h
            exact absurd h (by simp)
          · rw [hrec] at h
            simp only [Except.ok.injEq] at h
            subst h
            constructor
            · intro he
              rcases List.mem_cons.mp he with rfl | he
              · exact ⟨[], fmt0, rest, ht0, rfl, hp', hh0, rfl, hs,
                  fun g hg => absurd hg (List.not_mem_nil g)⟩
              · obtain ⟨pre, fmt, post, ht, hsplit, hpass, hh, heq, hns', hfirst⟩ :=
                  (ih _ out' hrec e).mp he
                refine ⟨fmt0 :: pre, fmt, post, ht, by rw [hsplit, List.cons_append],
                  hpass, hh, heq, fun hc => hns' (List.mem_cons_of_mem _ hc),
                  noEarlierLabel_cons ?_ hfirst⟩
                intro h2 _ hh2
                rw [hh0] at hh2
                injection hh2 with hh2
                subst hh2
                intro heq2
                exact hns' (heq2 ▸ List.mem_cons_self _ _)
            · rintro ⟨pre, fmt, post, ht, hsplit, hpass, hh, heq, hns, hfirst⟩
              rcases pre with _ | ⟨p0, pre'⟩
              · simp only [List.nil_append, List.cons.injEq] at hsplit
                obtain ⟨rfl, rfl⟩ := hsplit
                rw [hh0] at hh
                injection hh with hh
                subst hh
                rw [heq]
                exact List.mem_cons_self _ _
              · simp only [List.cons_append, List.cons.injEq] at hsplit
                obtain ⟨rfl, hsplit2⟩ := hsplit
                have hne : qualityLabelInt ht ∉ qualityLabelInt ht0 :: seen := by
                  intro hc
                  rcases List.mem_cons.mp hc with hc | hc
                  · exact hfirst fmt0 (List.mem_cons_self _ _) ht0 hp' hh0 hc.symm
                  · exact hns hc
                have : e ∈ out' := (ih _ out' hrec e).mpr
                  ⟨pre', fmt, post, ht, hsplit2, hpass, hh, heq, hne,
                    fun g hg => hfirst g (List.mem_cons_of_mem _ hg)⟩
                exact List.mem_cons_of_mem _ this

theorem filterFormats_ok (formats : List RawFormat) :
    ∀ seen : List String, (∀ fmt ∈ formats, fmt.height ≠ some none) →
      ∃ out, filterFormats formats seen = .ok out := by
  induction formats with
  | nil => exact fun seen _ => ⟨[], rfl⟩
  | cons fmt rest ih =>
    intro seen hgood
    have hrest : ∀ g ∈ rest, g.height ≠ some none :=
      fun g hg => hgood g (List.mem_cons_of_mem _ hg)
    by_cases hp : passesFilter fmt = false
    · obtain ⟨out, hout⟩ := ih seen hrest
      exact ⟨out, by rw [filterFormats_cons, if_pos hp]; exact hout⟩
    · rcases hh : pyGet fmt.height 0 with _ | ht
      · exfalso
        have hne := hgood fmt (List.mem_cons_self _ _)
        rcases hf : fmt.height with _ | v
        · rw [hf] at hh; simp [pyGet] at hh
        · rcases v with _ | n
          · exact hne hf
          · rw [hf] at hh; simp [pyGet] at hh
      · by_cases hs : qualityLabelInt ht ∈ seen
        · obtain ⟨out, hout⟩ := ih seen hrest
          refine ⟨out, ?_⟩
          rw [filterFormats_cons, if_neg hp]
          simp only [hh]
          rw [if_pos hs]
          exact hout
        · obtain ⟨out, hout⟩ := ih (qualityLabelInt ht :: seen) hrest
          refine ⟨mkEntry fmt ht (qualityLabelInt ht) :: out, ?_⟩
          rw [filterFormats_cons, if_neg hp]
          simp only [hh]
          rw [if_neg hs, hout]

theorem processFormats_shape (formats : List RawFormat) (out : List QualityOption)
    (h : processFormats formats = .ok out) :
    ∃ survivors, filterFormats formats [] = .ok survivors ∧
      out.tail = sortDesc survivors ∧
      ((survivors = [] ∧ out = []) ∨
        ∃ b rest, sortDesc survivors = b :: rest ∧
          out = { b with quality := "Highest Available", format_id := some "best" }
            :: b :: rest) := by
  unfold processFormats at h
  rcases hf : filterFormats formats [] with e | survivors
  · simp only [hf] at h
    exact absurd h (by simp)
  · simp only [hf] at h
    rcases hs : sortDesc survivors with _ | ⟨b, rest⟩
    · simp only [hs, Except.ok.injEq] at h
      subst h
      have hsurv : survivors = [] := by
        have hperm := sortDesc_perm survivors
        rw [hs] at hperm
        exact hperm.symm.eq_nil
      exact ⟨survivors, rfl, by rw [hs]; rfl, Or.inl ⟨hsurv, rfl⟩⟩
    · simp only [hs, Except.ok.injEq] at h
      subst h
      exact ⟨survivors, rfl, by rw [hs]; rfl, Or.inr ⟨b, rest, hs, rfl⟩⟩

theorem processFormats_ok (formats : List RawFormat)
    (hgood : ∀ fmt ∈ formats, fmt.height ≠ some none) :
    ∃ out, processFormats formats = .ok out := by
  obtain ⟨survivors, hsurv⟩ := filterFormats_ok formats [] hgood
  unfold processFormats
  simp only [hsurv]
  rcases hs : sortDesc survivors with _ | ⟨b, rest⟩
  · exact ⟨[], rfl⟩
  · exact ⟨_, rfl⟩

/-! ### Concrete raw formats used to instantiate the verified properties -/

/-- A well-formed 1080p raw format with byte size 100. -/
def sample1080a : RawFormat :=
  { url := some (some "https://cdn.example/a"), filesize := some (some 100),
    height := some (some 1080), width := some (some 1920), fps := some (some 30),
    vcodec := some (some "avc1"), acodec := some (some "mp4a"),
    format_id := some (some "fmt-a"), ext := some (some "mp4") }

/-- A second raw format also mapping to "1080p", with byte size 500 and a
different codec. -/
def sample1080b : RawFormat :=
  { url := some (some "https://cdn.example/b"), filesize := some (some 500),
    height := some (some 1080), width := some (some 1920), fps := some (some 30),
    vcodec := some (some "vp9"), acodec := some (some "opus"),
    format_id := some (some "fmt-b"), ext := some (some "webm") }

/-- A well-formed 720p raw format. -/
def sample720 : RawFormat :=
  { url := some (some "https://cdn.example/c"), filesize := some (some 70),
    height := some (some 720), width := some (some 1280), fps := some (some 30),
    vcodec := some (some "avc1"), acodec := some (some "mp4a"),
    format_id := some (some "fmt-c"), ext := some (some "mp4") }

/-- An 8K-class raw format (height 4320). -/
def sample4320 : RawFormat :=
  { url := some (some "https://cdn.example/d"), filesize := some (some 9000),
    height := some (some 4320), width := some (some 7680), fps := some (some 30),
    vcodec := some (some "av01"), acodec := some (some "opus"),
    format_id := some (some "fmt-8k"), ext := some (some "mp4") }

/-- A 2160p raw format. -/
def sample2160 : RawFormat :=
  { url := some (some "https://cdn.example/e"), filesize := some (some 4000),
    height := some (some 2160), width := some (some 3840), fps := some (some 30),
    vcodec := some (some "av01"), acodec := some (some "opus"),
    format_id := some (some "fmt-4k"), ext := some (some "mp4") }

/-- A raw format that passes every filter but carries an explicit null height
(the key is present with value None). -/
def sampleNullHeight : RawFormat :=
  { url := some (some "https://cdn.example/f"), filesize := some (some 100),
    height := some none, vcodec := some (some "avc1"),
    acodec := some (some "mp4a"), format_id := some (some "fmt-n") }

/-- A raw format dictionary with every key absent. -/
def sampleAllAbsent : RawFormat := {}

/-! ### Claims -/

/-- C1: for every input list of raw formats (whenever `_process_formats`
returns), the non-synthetic entries of the output (everything after the
prepended synthetic head) are sorted by height in descending order, no two
of them share a quality label, and entries of equal height keep the relative
order the surviving formats had in the input (the sort is stable and uses no
secondary key): for every height, filtering the tail of the output to that height
yields exactly the surviving entries of that height in input order. -/
theorem c1_normalizer_sorted_unique_stable :
    ∀ (formats : List RawFormat) (out : List QualityOption),
      processFormats formats = .ok out →
      (out.tail.Pairwise (fun a b => b.height ≤ a.height)) ∧
      ((out.tail.map (fun e => e.quality)).Nodup) ∧
      (∀ survivors : List QualityOption, filterFormats formats [] = .ok survivors →
        ∀ h : Int, out.tail.filter (fun e => e.height == h) =
          survivors.filter (fun e => e.height == h)) := by
  intro formats out hok
  obtain ⟨survivors, hsurv, htail, -⟩ := processFormats_shape formats out hok
  refine ⟨?_, ?_, ?_⟩
  · rw [htail]
    exact sortDesc_sorted survivors
  · rw [htail]
    exact ((sortDesc_perm survivors).map (fun e => e.quality)).nodup_iff.mpr
      (filterFormats_labels formats [] survivors hsurv).2
  · intro survivors2 hsurv2 h
    rw [hsurv] at hsurv2
    injection hsurv2 with hsurv2
    subst hsurv2
    rw [htail]
    exact filter_sortDesc survivors h

/-- Witness for C1 at the concrete input `[sample720, sample1080a]` (the sort
must move the 1080p entry in front of the 720p one). -/
theorem c1_witness :
    (((processFormats [sample720, sample1080a]).toOption.getD []).tail.Pairwise
      (fun a b => b.height ≤ a.height)) ∧
    ((((processFormats [sample720, sample1080a]).toOption.getD []).tail.map
      (fun e => e.quality)).Nodup) ∧
    (∀ survivors : List QualityOption,
      filterFormats [sample720, sample1080a] [] = .ok survivors →
      ∀ h : Int,
        ((processFormats [sample720, sample1080a]).toOption.getD []).tail.filter
          (fun e => e.height == h) =
        survivors.filter (fun e => e.height == h)) :=
  c1_normalizer_sorted_unique_stable [sample720, sample1080a]
    ((processFormats [sample720, sample1080a]).toOption.getD []) rfl

/-- C2: whenever the surviving (filtered, deduplicated) list is non-empty,
the output starts with a synthetic clone of its top entry whose quality
label is overridden to "Highest Available" and whose format identifier is
overridden to "best", every other field agreeing with the second entry
(the clone source); when the surviving list is empty the output is the
empty list with no synthetic entry. -/
theorem c2_synthetic_best_entry :
    ∀ (formats : List RawFormat) (survivors out : List QualityOption),
      filterFormats formats [] = .ok survivors →
      processFormats formats = .ok out →
      (survivors = [] → out = []) ∧
      (survivors ≠ [] → ∃ b rest, out =
        { b with quality := "Highest Available", format_id := some "best" }
          :: b :: rest) := by
  intro formats survivors out hsurv hok
  obtain ⟨survivors2, hsurv2, -, hcases⟩ := processFormats_shape formats out hok
  rw [hsurv] at hsurv2
  injection hsurv2 with hsurv2
  subst hsurv2
  rcases hcases with ⟨hnil, hout⟩ | ⟨b, rest, hs, hout⟩
  · exact ⟨fun _ => hout, fun hne => absurd hnil hne⟩
  · refine ⟨?_, fun _ => ⟨b, rest, hout⟩⟩
    intro hnil
    subst hnil
    rw [show sortDesc [] = [] from rfl] at hs
    exact absurd hs (by simp)

/-- Witness for C2 at the concrete input `[sample1080a]`. -/
theorem c2_witness :
    ((filterFormats [sample1080a] []).toOption.getD [] = [] →
      (processFormats [sample1080a]).toOption.getD [] = []) ∧
    ((filterFormats [sample1080a] []).toOption.getD [] ≠ [] →
      ∃ b rest, (processFormats [sample1080a]).toOption.getD [] =
        { b with quality := "Highest Available", format_id := some "best" }
          :: b :: rest) :=
  c2_synthetic_best_entry [sample1080a]
    ((filterFormats [sample1080a] []).toOption.getD [])
    ((processFormats [sample1080a]).toOption.getD []) rfl rfl

/-- C3: deduplication is first-wins by label.  Every surviving entry comes
from the first raw format (in input order) that passes the filters and
produces its quality label — no earlier eligible format produced that
label — and conversely the first eligible format of a label always yields a
surviving entry, so every later format producing the same label is dropped
regardless of its byte size or codec.  In particular, for the two concrete
formats mapping to "1080p" with sizes 100 and 500, the output of
`_process_formats` contains exactly one "1080p" entry and its size is 100
(and it is the entry of the first format). -/
theorem c3_dedup_first_wins :
    (∀ (formats : List RawFormat) (survivors : List QualityOption),
      filterFormats formats [] = .ok survivors →
      (∀ e ∈ survivors, ∃ pre fmt post ht,
        formats = pre ++ fmt :: post ∧ passesFilter fmt = true ∧
        pyGet fmt.height 0 = some ht ∧ e = entryOf fmt ht ∧
        noEarlierLabel (qualityLabelInt ht) pre) ∧
      (∀ pre fmt post ht, formats = pre ++ fmt :: post →
        passesFilter fmt = true → pyGet fmt.height 0 = some ht →
        noEarlierLabel (qualityLabelInt ht) pre →
        entryOf fmt ht ∈ survivors)) ∧
    ((((processFormats [sample1080a, sample1080b]).toOption.getD []).filter
        (fun e => e.quality == "1080p")).map (fun e => (e.filesize, e.format_id))
      = ([(some 100, some "fmt-a")] : List (Option Int × Option String))) := by
  refine ⟨?_, by decide⟩
  intro formats survivors hsurv
  constructor
  · intro e he
    obtain ⟨pre, fmt, post, ht, hsplit, hpass, hh, heq, -, hfirst⟩ :=
      (filterFormats_mem formats [] survivors hsurv e).mp he
    exact ⟨pre, fmt, post, ht, hsplit, hpass, hh, heq, hfirst⟩
  · intro pre fmt post ht hsplit hpass hh hfirst
    exact (filterFormats_mem formats [] survivors hsurv (entryOf fmt ht)).mpr
      ⟨pre, fmt, post, ht, hsplit, hpass, hh, rfl,
        List.not_mem_nil _, hfirst⟩

/-- Witness for C3: in the list `[sample1080a, sample1080b]` the entry of
the first 1080p format survives. -/
theorem c3_witness :
    entryOf sample1080a 1080 ∈
      (filterFormats [sample1080a, sample1080b] []).toOption.getD [] :=
  (c3_dedup_first_wins.1 [sample1080a, sample1080b]
      ((filterFormats [sample1080a, sample1080b] []).toOption.getD []) rfl).2
    [] sample1080a [sample1080b] 1080 rfl (by decide) (by decide)
    (fun g hg => absurd hg (List.not_mem_nil g))

/-- Quality-label breakpoints, written as the specification states them:
scanned from the highest, the multi-K case using truncating integer
division (`Int.tdiv`). -/
def specQualityLabel (height : Int) : String :=
  if height ≥ 4320 then toString (Int.tdiv height 1000) ++ "K"
  else if height ≥ 2160 then "4K"
  else if height ≥ 1440 then "2K"
  else if height ≥ 1080 then "1080p"
  else if height ≥ 720 then "720p"
  else if height ≥ 480 then "480p"
  else if height ≥ 360 then "360p"
  else if height ≥ 240 then "240p"
  else if height ≥ 144 then "144p"
  else toString height ++ "p"

/-- C4: for every non-negative integer height the label of
`_create_quality_label` is exactly the breakpoint table of the specification
(truncating division in the multi-K case), and the width and frame-rate
arguments never affect the result; the claimed boundary examples hold
(2160 gives "4K", 2159 gives "2K", 1079 gives "720p"). -/
theorem c4_quality_label_breakpoints :
    (∀ h : Int, 0 ≤ h → ∀ w f w2 f2 : Option Int,
      createQualityLabel (some h) w f = .ok (specQualityLabel h) ∧
      createQualityLabel (some h) w f = createQualityLabel (some h) w2 f2) ∧
    createQualityLabel (some 2160) none none = .ok "4K" ∧
    createQualityLabel (some 2159) none none = .ok "2K" ∧
    createQualityLabel (some 1079) none none = .ok "720p" := by
  refine ⟨?_, rfl, rfl, rfl⟩
  intro h h0 w f w2 f2
  refine ⟨?_, rfl⟩
  show Except.ok (qualityLabelInt h) = Except.ok (specQualityLabel h)
  have : specQualityLabel h = qualityLabelInt h := by
    unfold specQualityLabel qualityLabelInt
    by_cases h4 : h ≥ 4320
    · rw [if_pos h4, if_pos h4, Int.tdiv_eq_ediv h0 (by norm_num)]
    · rw [if_neg h4, if_neg h4]
  rw [this]

/-- Witness for C4 at height 2160 with varying width and frame rate. -/
theorem c4_witness :
    createQualityLabel (some 2160) (some 3840) (some 30) = .ok (specQualityLabel 2160) ∧
    createQualityLabel (some 2160) (some 3840) (some 30) =
      createQualityLabel (some 2160) none (some 60) :=
  c4_quality_label_breakpoints.1 2160 (by decide) (some 3840) (some 30) none (some 60)

/-- Counterexample to C5 as stated.  `sample1080b` has a non-empty url, a
non-zero exact size and a real video codec — none of the three exclusion
conditions of the claim hold, witnessed by `passesFilter` (their exact
conjunction) being true — yet no entry of it (identifier "fmt-b") appears in
the output of `_process_formats [sample1080a, sample1080b]`: it is excluded
by label deduplication, so exclusion is not equivalent to the three
conditions. -/
theorem c5_exclusion_counterexample :
    passesFilter sample1080b = true ∧
    ((processFormats [sample1080a, sample1080b]).toOption.getD []).all
      (fun e => e.format_id != some "fmt-b") = true := by decide

/-- C5 amended: the three conditions (missing or empty url, exact size
exactly 0, video codec the sentinel "none") characterize exclusion at the
filtering stage only — `passesFilter` is by definition their negated
disjunction — and a raw format passing them can still be excluded by label
deduplication.  What does hold of the whole output: every entry (the
synthetic head included) originates from a raw format that passes the
filters, so in particular no audio-only format (video codec "none") and no
format with exact size 0 ever contributes an entry. -/
theorem c5_exclusion_amended :
    ∀ (formats : List RawFormat) (out : List QualityOption),
      processFormats formats = .ok out →
      ∀ e ∈ out, ∃ pre fmt post ht,
        formats = pre ++ fmt :: post ∧ passesFilter fmt = true ∧
        pyGet fmt.height 0 = some ht ∧
        (e = entryOf fmt ht ∨
          e = { entryOf fmt ht with
                  quality := "Highest Available", format_id := some "best" }) := by
  intro formats out hok e he
  obtain ⟨survivors, hsurv, htail, hcases⟩ := processFormats_shape formats out hok
  rcases hcases with ⟨-, hout⟩ | ⟨b, rest, hs, hout⟩
  · subst hout
    exact absurd he (List.not_mem_nil e)
  · subst hout
    rcases List.mem_cons.mp he with rfl | he2
    · have hb : b ∈ survivors := (sortDesc_perm survivors).mem_iff.mp
        (by rw [hs]; exact List.mem_cons_self _ _)
      obtain ⟨pre, fmt, post, ht, hsplit, hpass, hh, heq, -, -⟩ :=
        (filterFormats_mem formats [] survivors hsurv b).mp hb
      refine ⟨pre, fmt, post, ht, hsplit, hpass, hh, Or.inr ?_⟩
      rw [heq]
    · have he3 : e ∈ survivors := (sortDesc_perm survivors).mem_iff.mp
        (by rw [hs]; exact he2)
      obtain ⟨pre, fmt, post, ht, hsplit, hpass, hh, heq, -, -⟩ :=
        (filterFormats_mem formats [] survivors hsurv e).mp he3
      exact ⟨pre, fmt, post, ht, hsplit, hpass, hh, Or.inl heq⟩

/-- Witness for C5 (amended) at the concrete input `[sample1080a]` and its
surviving entry. -/
theorem c5_exclusion_witness :
    ∃ pre fmt post ht,
      [sample1080a] = pre ++ fmt :: post ∧ passesFilter fmt = true ∧
      pyGet fmt.height 0 = some ht ∧
      (entryOf sample1080a 1080 = entryOf fmt ht ∨
        entryOf sample1080a 1080 = { entryOf fmt ht with
          quality := "Highest Available", format_id := some "best" }) :=
  c5_exclusion_amended [sample1080a]
    ((processFormats [sample1080a]).toOption.getD []) rfl
    (entryOf sample1080a 1080) (by decide)

/-- Counterexample to C6 as stated.  With quality "720p" and the supplied
identifier "" (neither "Highest Available" nor "best"), rule 2 of the claim
requires the identifier to be passed through verbatim (the expression
""), but `download_video` tests the identifier for Python truthiness, so the
empty identifier falls through to the plain fallback expression instead. -/
theorem c6_resolver_counterexample :
    selectFormat "720p" (some "") = plainFormatExpr ∧ plainFormatExpr ≠ "" := by
  exact ⟨rfl, by decide⟩

/-- C6 amended: the Quality Resolver maps (label, optional identifier) by
first-matching-rule: label "Highest Available" or identifier "best" gives
the combined best-video+best-audio expression; otherwise a supplied
identifier is passed through verbatim provided it is non-empty (and not
"best", which rule 1 already captured); otherwise — no identifier or the
empty-string identifier, which Python treats as falsy — the plain fallback
expression.  In particular "Highest Available" with no identifier resolves
to the combined expression, which differs from the plain fallback. -/
theorem c6_resolver_policy :
    (∀ (q : String) (fid : Option String),
      (q = "Highest Available" ∨ fid = some "best" →
        selectFormat q fid = bestFormatExpr) ∧
      (q ≠ "Highest Available" → ∀ s : String, fid = some s → s ≠ "" → s ≠ "best" →
        selectFormat q fid = s) ∧
      (q ≠ "Highest Available" → fid = none ∨ fid = some "" →
        selectFormat q fid = plainFormatExpr)) ∧
    (selectFormat "Highest Available" none = bestFormatExpr ∧
      bestFormatExpr ≠ plainFormatExpr) := by
  refine ⟨?_, rfl, by decide⟩
  intro q fid
  refine ⟨?_, ?_, ?_⟩
  · intro hcond
    rw [selectFormat, if_pos hcond]
  · intro hq s hfid hs hbest
    subst hfid
    have hcond : ¬(q = "Highest Available" ∨ (some s : Option String) = some "best") := by
      rintro (h1 | h2)
      · exact hq h1
      · exact hbest (by injection h2)
    have hfalsy : optStrFalsy (some s) = false := by simp [optStrFalsy, hs]
    rw [selectFormat, if_neg hcond, if_pos hfalsy]
    rfl
  · intro hq hfid
    rcases hfid with rfl | rfl
    · have hcond : ¬(q = "Highest Available" ∨ (none : Option String) = some "best") := by
        rintro (h1 | h2)
        · exact hq h1
        · exact absurd h2 (by simp)
      rw [selectFormat, if_neg hcond]
      rfl
    · have hcond : ¬(q = "Highest Available" ∨ (some "" : Option String) = some "best") := by
        rintro (h1 | h2)
        · exact hq h1
        · injection h2 with h2
          exact absurd h2 (by decide)
      rw [selectFormat, if_neg hcond]
      rfl

/-- Witness for C6 (amended): a plain identifier is passed through. -/
theorem c6_resolver_witness :
    selectFormat "720p" (some "fmt-c") = "fmt-c" :=
  (c6_resolver_policy.1 "720p" (some "fmt-c")).2.1 (by decide) "fmt-c" rfl
    (by decide) (by decide)

/-- Counterexample to C7 as stated.  The two-character description "hi" is
not truncated (its length is at most 200), yet the preview description
carries the appended ellipsis: the conditional in `get_video_info` appends
"..." to every truthy description, not only to truncated ones. -/
theorem c7_description_counterexample :
    descField (some (some "hi")) = "hi..." ∧
    ("hi" : String).length ≤ 200 ∧
    descField (some (some "hi")) ≠ "hi" := by
  exact ⟨rfl, by decide, by decide⟩

/-- C7 amended: the preview description is the first at most 200 characters
of the original description with an ellipsis appended whenever the original
is non-empty — even when nothing was truncated — and an absent, null or
empty description yields the empty string. -/
theorem c7_description_amended :
    (∀ s : String, s ≠ "" → descField (some (some s)) = strTake s 200 ++ "...") ∧
    (∀ s : String, s ≠ "" → s.length ≤ 200 → descField (some (some s)) = s ++ "...") ∧
    descField none = "" ∧ descField (some none) = "" ∧
    descField (some (some "")) = "" := by
  have hbase : ∀ s : String, s ≠ "" → descField (some (some s)) = strTake s 200 ++ "..." := by
    intro s hs
    have hs' : (s == "") = false := by simp [hs]
    simp [descField, pyGet, hs']
  refine ⟨hbase, ?_, rfl, rfl, rfl⟩
  intro s hs hlen
  rw [hbase s hs]
  have : strTake s 200 = s := by
    show String.mk (s.data.take 200) = s
    rw [List.take_of_length_le]
    exact hlen
  rw [this]

/-- Witness for C7 (amended) on a short non-empty description. -/
theorem c7_description_witness :
    descField (some (some "a short description")) = "a short description" ++ "..." :=
  c7_description_amended.2.1 "a short description" (by decide) (by decide)

/-- Counterexample to C8 as stated.  When the engine fails with the raw
error text "boom" during a metadata fetch, the message of the 400 response
is "Error extracting video info: boom" — a rewritten message, not the raw
error text of the engine. -/
theorem c8_error_counterexample :
    previewResponse (.error "boom") =
      .error (400, "Error extracting video info: boom") ∧
    "Error extracting video info: boom" ≠ "boom" := by
  exact ⟨rfl, by decide⟩

/-- C8 amended: an engine failure during a metadata fetch is reported as a
400 response whose message is the raw engine error text prefixed with the
fixed string "Error extracting video info: " (added by the wrapping
`except` clause of `get_video_info`); the raw text is embedded verbatim but
the message is not identical to it. -/
theorem c8_error_wrapped :
    ∀ msg : String, previewResponse (.error msg) =
      .error (400, "Error extracting video info: " ++ msg) := by
  intro msg
  rfl

/-- Counterexample to C9 as stated.  `sampleNullHeight` passes the url,
size and codec filters but its height key holds an explicit null; in the
source, `_create_quality_label` then evaluates `None >= 4320`, which raises
a `TypeError`, so `_process_formats` does not return an output list for
this input: null fields do not degrade to defaults. -/
theorem c9_counterexample_null_height :
    (processFormats [sampleNullHeight]).isOk = false := by decide

/-- C9 amended: `_process_formats` raises no error and returns a list for
every input whose height fields are absent or integers — absent or malformed
fields degrade to zero or empty-string defaults — but a format that passes
the filters with a present-but-null height makes the label computation
raise. -/
theorem c9_no_internal_error_amended :
    ∀ formats : List RawFormat, (∀ fmt ∈ formats, fmt.height ≠ some none) →
      ∃ out, processFormats formats = .ok out := by
  intro formats hgood
  exact processFormats_ok formats hgood

/-- Witness for C9 (amended): a format list containing a descriptor with
every field absent is processed without error. -/
theorem c9_no_internal_error_witness :
    ∃ out, processFormats [sample1080a, sampleAllAbsent] = .ok out :=
  c9_no_internal_error_amended [sample1080a, sampleAllAbsent] (by decide)

theorem string_append_p_ne (s : String) : s ++ "p" ≠ "5K" := by
  intro h
  have hd : s.data ++ ['p'] = ['5', 'K'] := by
    have h2 := congrArg String.data h
    rwa [String.data_append] at h2
  rcases hs : s.data with _ | ⟨c, cs⟩
  · rw [hs] at hd
    exact absurd hd (by decide)
  · have hlen := congrArg List.length hd
    rw [hs] at hlen
    simp only [List.length_append, List.length_cons, List.length_nil] at hlen
    have hcs : cs = [] := List.length_eq_zero.mp (by omega)
    rw [hs, hcs] at hd
    simp only [List.cons_append, List.nil_append, List.cons.injEq, and_true] at hd
    exact absurd hd.2 (by decide)

/-- C10: every height from 4320 to 4999 gets the label "4K" (the multi-K
branch computes `height // 1000 = 4`), the same label as every height in
[2160, 4319]; consequently an 8K-class format of height 4320 is labelled
"4K" and deduplicates against a 2160p format under the first-wins policy
(shown on the concrete list `[sample4320, sample2160]`), and the smallest
multi-K label the first branch produces beyond "4K" is "5K", first reached
at height 5000: height 5000 is labelled "5K" and no height below 5000 is. -/
theorem c10_multik_label_collapse :
    (∀ h : Int, 4320 ≤ h → h ≤ 4999 → qualityLabelInt h = "4K") ∧
    (∀ h : Int, 2160 ≤ h → h ≤ 4319 → qualityLabelInt h = "4K") ∧
    ((((processFormats [sample4320, sample2160]).toOption.getD []).map
        (fun e => (e.quality, e.format_id)) : List (String × Option String)) =
      [("Highest Available", some "best"), ("4K", some "fmt-8k")]) ∧
    qualityLabelInt 5000 = "5K" ∧
    (∀ h : Int, h < 5000 → qualityLabelInt h ≠ "5K") := by
  refine ⟨?_, ?_, by decide, by decide, ?_⟩
  · intro h h1 h2
    have hd : h / 1000 = 4 := by omega
    unfold qualityLabelInt
    rw [if_pos (show h ≥ 4320 by omega), hd]
    decide
  · intro h h1 h2
    unfold qualityLabelInt
    rw [if_neg (show ¬h ≥ 4320 by omega), if_pos (show h ≥ 2160 by omega)]
  · intro h hlt
    unfold qualityLabelInt
    split_ifs with g1 g2 g3 g4 g5 g6 g7 g8 g9
    · have hd : h / 1000 = 4 := by omega
      rw [hd]
      decide
    · decide
    · decide
    · decide
    · decide
    · decide
    · decide
    · decide
    · decide
    · exact string_append_p_ne (toString h)

/-- Witness for C10 at heights 4321 and 4999. -/
theorem c10_witness :
    qualityLabelInt 4321 = "4K" ∧ qualityLabelInt 4999 ≠ "5K" :=
  ⟨c10_multik_label_collapse.1 4321 (by decide) (by decide),
    c10_multik_label_collapse.2.2.2.2 4999 (by decide)⟩
